import Mathlib

/-!
# Verification of speedy-vision core components

A shallow embedding, in Lean 4, of the core components of the speedy-vision
GPU computer-vision library, together with theorems checking the library's
natural-language specification against the code.

Embedded components (each definition is translated from the corresponding
JavaScript / GLSL source):

* `GPUKernelGroup.declare` / `GPUKernelGroup.compose`
  (src/gpu/gpu-kernel-group.js) — lazy memoized kernel instantiation and
  multi-pass function composition.
* `conv2D` / `conv1D` / `texConv1D` convolution generators
  (src/gpu/kernels/shaders/convolution.js) — kernel validation and the
  semantics of the generated per-pixel shader bodies.
* `upsample2` (src/gpu/kernels/shaders/pyramids/upsample2.glsl).
* The keypoint wire codec: the encoder texture layout produced by
  encode-keypoints.glsl and the host-side decoder `decodeKeypoints`
  (tests/pipeline.js, GPUEncoders).
* The pyramid scale encoding `alpha(x) = (log2 M - log2 x)/(log2 M + H)`
  (tests/pipeline.js, setScale/scale shader generators).
* `FeatureDetector._extractKeypoints` slack computation
  (src/core/feature-detector.js).
* `FeatureDetectionAlgorithm`'s `expected` getter/setter
  (feature-detection-algorithm.js).
-/

namespace SpeedyVision

/-! ## Pipeline composer: src/gpu/gpu-kernel-group.js

A stage is a function taking an image as its first argument plus extra
call arguments (modelled as one bundled value of type `β`, since the JS
spread `...args` passes them around as a unit). -/

/-- A GPU kernel stage: image (first argument) plus broadcast extra
arguments, producing an image. -/
def Stage (α β : Type) := α → β → α

/-- `compose` body, translated from `GPUKernelGroup.compose`
(src/gpu/gpu-kernel-group.js lines 71–105): arities 2, 3 and 4 are
special-cased with explicitly nested calls; any other arity falls through
to a left-to-right `reduce` seeded with the input image. -/
def composeRun {α β : Type} (fn : List (Stage α β)) (image : α) (args : β) : α :=
  match fn with
  | [f0, f1] => f1 (f0 image args) args
  | [f0, f1, f2] => f2 (f1 (f0 image args) args) args
  | [f0, f1, f2, f3] => f3 (f2 (f1 (f0 image args) args) args) args
  | fs => fs.foldl (fun img fi => fi img args) image

/-- Reference chain application: stage i's output feeds stage i+1 as its
first argument, the extra arguments are passed unmodified to every
stage. -/
def chainApply {α β : Type} : List (Stage α β) → α → β → α
  | [], image, _ => image
  | f :: fs, image, args => chainApply fs (f image args) args

/-! ## Lazy memoized kernel declaration: `GPUKernelGroup.declare`

The property getter installed by `declare` evaluates
`this[key] || (this[key] = this._spawnKernel(fn, settings))`: the cache
slot `this['__k_' + name]` starts out absent and is filled by the first
access.  Spawned kernels are objects (always truthy), so the `||` check
is the `Option` test below.  We track how many times `_spawnKernel` ran
with a counter, and identify kernels with the counter value at spawn
time. -/

/-- The state of one declared kernel property: the memo slot
`this['__k_' + name]` plus a count of `_spawnKernel` invocations. -/
structure KernelSlot where
  cache : Option Nat
  spawnCount : Nat
deriving DecidableEq, Repr

/-- `_spawnKernel` (src/gpu/gpu-kernel-group.js lines 151–168): constructs
a fresh kernel object.  Modelled as returning a fresh identifier and
bumping the spawn counter. -/
def spawnKernel (s : KernelSlot) : Nat × KernelSlot :=
  (s.spawnCount, { cache := s.cache, spawnCount := s.spawnCount + 1 })

/-- The getter installed by `declare` (src/gpu/gpu-kernel-group.js lines
50–63): return the cached kernel if present, otherwise spawn one, store
it in the cache and return it. -/
def getKernel (s : KernelSlot) : Nat × KernelSlot :=
  match s.cache with
  | some k => (k, s)
  | none =>
      let r := spawnKernel s
      (r.1, { cache := some r.1, spawnCount := r.2.spawnCount })

/-! ## FeatureDetector._extractKeypoints slack
(src/core/feature-detector.js lines 169–180)

The source computes
`Math.max(1, Math.min(keypoints.length / this._lastKeypointCount), 2)`
when the previous count is positive, else `1`.  Note the parenthesis
placement: `Math.min` receives a single argument (and returns it), so the
outer call is the three-way maximum `max(1, ratio, 2)`. -/

/-- Slack multiplier from `FeatureDetector._extractKeypoints`, translated
with the source's exact parenthesization. -/
def extractKeypointsSlack (lastCount curCount : Nat) : ℚ :=
  if lastCount > 0 then
    max (max 1 ((curCount : ℚ) / (lastCount : ℚ))) 2
  else 1

/-- The slack the spec describes: ratio of current to previous keypoint
count clamped into [1, 2] (what the misplaced parenthesis was evidently
meant to compute), 1 on the first frame. -/
def claimedSlack (lastCount curCount : Nat) : ℚ :=
  if lastCount > 0 then
    max 1 (min ((curCount : ℚ) / (lastCount : ℚ)) 2)
  else 1

/-! ## FeatureDetectionAlgorithm expected getter/setter
(feature-detection-algorithm.js lines 146–191)

The getter reads
`if (this._automaticSensitivity == null) return {number: this._automaticSensitivity.expected, ...} else return undefined`.
When `_automaticSensitivity` is `null` the property access on `null`
throws a `TypeError`; when it is set, the getter returns `undefined`. -/

/-- The `AutomaticSensitivity` helper object, reduced to the two fields
the getter/setter touch. -/
structure AutoSensitivity where
  expected : ℚ
  tolerance : ℚ
deriving DecidableEq, Repr

/-- Result of evaluating the `expected` getter: either a thrown error or
a returned value (`none` = `undefined`). -/
def getExpected (auto : Option AutoSensitivity) :
    Except String (Option AutoSensitivity) :=
  match auto with
  | none => Except.error "TypeError: cannot read properties of null"
  | some _ => Except.ok none

/-- Argument accepted by the `expected` setter: a number, or an object
with optional `number` / `tolerance` fields. -/
inductive ExpectedArg where
  | num (n : ℚ)
  | obj (number : Option ℚ) (tolerance : Option ℚ)
deriving DecidableEq, Repr

/-- The `expected` setter (lines 162–191): a defined argument enables
automatic sensitivity (constructing the helper if needed) and stores the
parameters; `undefined` disables it, nulling the field. `init` supplies
the fields a freshly constructed `AutomaticSensitivity` starts with. -/
def setExpected (init : AutoSensitivity) (auto : Option AutoSensitivity)
    (arg : Option ExpectedArg) : Option AutoSensitivity :=
  match arg with
  | some a =>
      let cur := auto.getD init
      match a with
      | ExpectedArg.num n => some { cur with expected := n }
      | ExpectedArg.obj number tolerance =>
          some { cur with
                 expected := number.getD cur.expected,
                 tolerance := tolerance.getD cur.tolerance }
  | none => none

/-! ## Convolution generators: src/gpu/kernels/shaders/convolution.js

Pixels are RGBA quadruples of rationals (the GPU's unit-interval floats);
an image maps row/column indices to pixels, indexed `image[y][x]` as in
the generated shader bodies. -/

/-- An RGBA pixel: channel 0 = red, 1 = green, 2 = blue, 3 = alpha. -/
def Pixel := Fin 4 → ℚ

/-- An image, indexed `image y x` (row-major, as `image[y][x]` in the
generated code). -/
def Image := Nat → Nat → Pixel

/-- `symmetricRange n = [-n, ..., n]` (convolution.js line 25). -/
def symmetricRange (n : Nat) : List ℤ :=
  (List.range (2 * n + 1)).map (fun x => (x : ℤ) - (n : ℤ))

/-- `cartesian a b` (convolution.js line 24): all pairs, first component
outermost. -/
def cartesian (a b : List ℤ) : List (ℤ × ℤ) :=
  a.flatMap (fun x => b.map (fun y => (x, y)))

/-- The generated coordinate clamp
`Math.min(Math.max(v, 0), dim - 1)`, mapped back into a natural-number
texel index. -/
def clampCoord (v : ℤ) (dim : Nat) : Nat :=
  (min (max v 0) ((dim : ℤ) - 1)).toNat

/-- One accumulation step of the generated convolution bodies
(convolution.js lines 44–48 and 100–108): fetch `p = image[y][x]` at the
already-resolved tap coordinate and add `p[c] * k` to each of the r/g/b
accumulators. -/
def convTap (image : Image) (k : ℚ) (yc xc : Nat)
    (acc : ℚ × ℚ × ℚ) : ℚ × ℚ × ℚ :=
  let p := image yc xc
  (acc.1 + p 0 * k, acc.2.1 + p 1 * k, acc.2.2 + p 2 * k)

/-- The pixel computed by the shader generated by `conv2D`
(convolution.js lines 40–62) at thread coordinate `(tx, ty)`: the r/g/b
accumulators run over the `(2N+1)×(2N+1)` taps, and the output alpha is
`pixel[3]` — the alpha of the input pixel at the thread coordinate. -/
def conv2DRun (kernel : List ℚ) (normalizationConstant : ℚ)
    (image : Image) (w h : Nat) (tx ty : Nat) : Pixel :=
  let kernel32 := kernel.map (· * normalizationConstant)
  let kSize := Nat.sqrt kernel.length
  let N := kSize / 2
  let rgb := (cartesian (symmetricRange N) (symmetricRange N)).foldl
    (fun acc ij =>
      convTap image
        (kernel32.getD ((ij.1 + (N : ℤ)).toNat * kSize + (ij.2 + (N : ℤ)).toNat) 0)
        (clampCoord ((ty : ℤ) + ij.1) h) (clampCoord ((tx : ℤ) + ij.2) w) acc)
    (0, 0, 0)
  fun c =>
    if c = 0 then rgb.1 else if c = 1 then rgb.2.1
    else if c = 2 then rgb.2.2 else image ty tx 3

/-- Convolution axis selector for the 1D generators. -/
inductive Axis where
  | x
  | y
deriving DecidableEq, Repr

/-- The pixel computed by the shader generated by `conv1D`
(convolution.js lines 96–122) at thread coordinate `(tx, ty)`: on axis
`x` the y coordinate stays at the thread's row and x is clamped (and
symmetrically for axis `y`); output alpha is the input pixel's alpha at
the thread coordinate. -/
def conv1DRun (axis : Axis) (kernel : List ℚ) (normalizationConstant : ℚ)
    (image : Image) (w h : Nat) (tx ty : Nat) : Pixel :=
  let kernel32 := kernel.map (· * normalizationConstant)
  let kSize := kernel.length
  let N := kSize / 2
  let rgb := (symmetricRange N).foldl
    (fun acc i =>
      let k := kernel32.getD (i + (N : ℤ)).toNat 0
      match axis with
      | Axis.x => convTap image k ty (clampCoord ((tx : ℤ) + i) w) acc
      | Axis.y => convTap image k (clampCoord ((ty : ℤ) + i) h) tx acc)
    (0, 0, 0)
  fun c =>
    if c = 0 then rgb.1 else if c = 1 then rgb.2.1
    else if c = 2 then rgb.2.2 else image ty tx 3

/-- One accumulation step of the texture-based 1D convolution body
(convolution.js lines 144–157): `r += p[0] * (k[0]*scale + offset)` and
likewise for g/b, with the kernel tap fetched from row 0 of the kernel
texture. -/
def texConvTap (image : Image) (texKernel : Image) (scale offset : ℚ)
    (n : Nat) (yc xc : Nat) (i : ℤ) (acc : ℚ × ℚ × ℚ) : ℚ × ℚ × ℚ :=
  let p := image yc xc
  let k := texKernel 0 (i + (n : ℤ)).toNat
  (acc.1 + p 0 * (k 0 * scale + offset),
   acc.2.1 + p 1 * (k 1 * scale + offset),
   acc.2.2 + p 2 * (k 2 * scale + offset))

/-- The pixel computed by the shader generated by `texConv1D`
(convolution.js lines 127–167) at thread coordinate `(tx, ty)`:
`N = floor(kSize / 2)`, the loop clamps the coordinate on the chosen axis
(`Math.max(0, Math.min(t + i, dim - 1))`, same clamp as before), and the
output alpha is the input pixel's alpha at the thread coordinate. -/
def texConv1DRun (axis : Axis) (image : Image) (texKernel : Image)
    (kSize : Nat) (scale offset : ℚ) (w h : Nat) (tx ty : Nat) : Pixel :=
  let N := kSize / 2
  let rgb := (symmetricRange N).foldl
    (fun acc i =>
      match axis with
      | Axis.x =>
          let xc := clampCoord ((tx : ℤ) + i) w
          texConvTap image texKernel scale offset N ty xc i acc
      | Axis.y =>
          let yc := clampCoord ((ty : ℤ) + i) h
          texConvTap image texKernel scale offset N yc tx i acc)
    (0, 0, 0)
  fun c =>
    if c = 0 then rgb.1 else if c = 1 then rgb.2.1
    else if c = 2 then rgb.2.2 else image ty tx 3

/-- Outcome of the `conv2D` generator (convolution.js lines 28–63): the
validation runs before code generation; `Utils.fatal` aborts, so an
invalid kernel produces no convolution function. On success the
generator closes over the kernel and normalization constant. -/
def conv2D (kernel : List ℚ) (normalizationConstant : ℚ) :
    Except String (Image → Nat → Nat → Nat → Nat → Pixel) :=
  let kSize := Nat.sqrt kernel.length
  if kSize < 1 || kSize % 2 == 0 then
    Except.error "Can't perform a 2D convolution with an invalid kSize"
  else if kSize * kSize != kernel.length then
    Except.error "Invalid 2D convolution kernel (expected: square)"
  else
    Except.ok (conv2DRun kernel normalizationConstant)

/-- Outcome of the `conv1D` generator (convolution.js lines 84–123). The
axis is always `'x'` or `'y'` at the call sites (`convX`/`convY`), which
the `Axis` type makes intrinsic. -/
def conv1D (axis : Axis) (kernel : List ℚ) (normalizationConstant : ℚ) :
    Except String (Image → Nat → Nat → Nat → Nat → Pixel) :=
  let kSize := kernel.length
  if kSize < 1 || kSize % 2 == 0 then
    Except.error "Can't perform a 1D convolution with an invalid kSize"
  else
    Except.ok (conv1DRun axis kernel normalizationConstant)

/-! ## upsample2: src/gpu/kernels/shaders/pyramids/upsample2.glsl

`color = mix(vec4(0,0,0,pixel.a), pixel, ((thread.x + thread.y) & 1) == 0)`
with `pixel = pixelAt(image, thread / 2)` (integer component-wise
division). `mix` with a boolean selector picks the second argument when
the condition holds. -/

/-- The pixel written by the upsample2 shader at thread `(x, y)`. -/
def upsample2Run (image : Image) (x y : Nat) : Pixel :=
  let pixel := image (y / 2) (x / 2)
  if (x + y) % 2 = 0 then pixel
  else fun c => if c = 3 then pixel 3 else 0

/-! ## Keypoint wire codec (tests/pipeline.js, GPUEncoders)

The encoder side is the texture produced by encode-keypoints.glsl (record
layout: pixel 0 = position bytes as x-lo/x-hi/y-lo/y-hi, pixel 1 =
scale/rotation/score/reserved bytes, then `descriptorSize/4` descriptor
pixels; every cell past the last keypoint's records is white), as
subsequently filled in by the orientation pass (which writes the
orientation byte into channel g of pixel 1) and the descriptor pass
(which writes the raw descriptor bytes into pixels 2..).  The decoder
side is a direct translation of `GPUEncoders.decodeKeypoints`.

Pixels travel as RGBA8 bytes; the GPU stores a unit-interval float `q`
into a byte channel by rounding `255 * q` to the nearest integer
(`quantizeByte`). -/

/-- A keypoint presented to the encoder: integer position, unit-interval
cornerness score (channel r of the marked corner pixel) and scale tag
alpha (channel a), the orientation byte the orientation pass will store,
and the raw descriptor bytes the descriptor pass will store. -/
structure KeypointInput where
  x : Nat
  y : Nat
  score : ℚ
  alpha : ℚ
  rotationByte : Nat
  descriptor : List Nat
deriving DecidableEq, Repr, Inhabited

/-- RGBA8 storage of a unit-interval float: round to the nearest of the
256 representable levels (clamped). -/
def quantizeByte (q : ℚ) : Nat :=
  min 255 (Int.toNat ⌊255 * q + 1 / 2⌋)

/-- The `2 + descriptorSize/4` pixels (as bytes, raster order) that the
encoder texture holds for one keypoint: position pixel
(`lo.x, hi.x, lo.y, hi.y`, from `position & 255` and `position >> 8`),
properties pixel (`scale, rotation, score, 0`), then descriptor bytes. -/
def encodeRecord (kp : KeypointInput) : List Nat :=
  [kp.x % 256, kp.x / 256, kp.y % 256, kp.y / 256,
   quantizeByte kp.alpha, kp.rotationByte, quantizeByte kp.score, 0] ++ kp.descriptor

/-- The byte content of the `L × L` encoder texture for a keypoint list:
the records in raster order, then white (255) everywhere past them —
encode-keypoints.glsl writes `vec4(1)` for every cell whose keypoint
index exceeds the number of surviving keypoints, and a white position
decodes out of image bounds, acting as the end marker. -/
def encodeKeypoints (L descriptorSize : Nat) (kps : List KeypointInput) : List Nat :=
  kps.flatMap encodeRecord ++
    List.replicate (4 * L * L - kps.length * (8 + descriptorSize)) 255

/-- A keypoint as rebuilt by `decodeKeypoints`.  The decoded scale is
`2 ^ lod` (`lod = 0` when the scale byte is the 255 no-scale sentinel)
and the decoded rotation is `rotationCoeff * π`; we carry the exponent
and the coefficient, which determine them. -/
structure DecodedKeypoint where
  x : Nat
  y : Nat
  hasScale : Bool
  lod : ℚ
  rotationCoeff : ℚ
  score : ℚ
  descriptor : List Nat
deriving DecidableEq, Repr, Inhabited

/-- The loop body of `GPUEncoders.decodeKeypoints` (tests/pipeline.js):
read the 16-bit little-endian position; stop at the first record whose
position decodes outside image bounds; otherwise rebuild the keypoint
(`scale = 2 ^ (-lgM + (lgM + pyrHeight) * byte / 255)` when the scale
byte is below 255, else `scale = 1`; `rotation = ((2*byte)/255 - 1) * π`
when a scale is present; `score = byte / 255`; descriptor = the raw
slice) and advance `4 * (2 + descriptorSize/4) = 8 + descriptorSize`
bytes.  The loop runs at most once per byte of input, which bounds it by
the explicit fuel. -/
def decodeGo (w h descriptorSize : Nat) (lgM pyrHeight : ℚ) :
    Nat → List Nat → List DecodedKeypoint
  | 0, _ => []
  | _, [] => []
  | fuel + 1, pixels@(_ :: _) =>
      let x := 256 * pixels.getD 1 0 + pixels.getD 0 0
      let y := 256 * pixels.getD 3 0 + pixels.getD 2 0
      if x ≥ w ∨ y ≥ h then []
      else
        let scaleByte := pixels.getD 4 0
        let lod : ℚ :=
          if scaleByte < 255 then -lgM + (lgM + pyrHeight) * scaleByte / 255 else 0
        let rotationByte := pixels.getD 5 0
        let rotationCoeff : ℚ :=
          if scaleByte < 255 then (2 * rotationByte) / 255 - 1 else 0
        let score := (pixels.getD 6 0 : ℚ) / 255
        let descriptor := (pixels.drop 8).take descriptorSize
        ⟨x, y, decide (scaleByte < 255), lod, rotationCoeff, score, descriptor⟩ ::
          decodeGo w h descriptorSize lgM pyrHeight fuel (pixels.drop (8 + descriptorSize))

/-- `GPUEncoders.decodeKeypoints`: run the decode loop over the flattened
RGBA byte array.  `w`/`h` are the source image dimensions, `lgM` is
`log2(pyramidMaxScale)` and `pyrHeight` the pyramid height. -/
def decodeKeypoints (w h descriptorSize : Nat) (lgM pyrHeight : ℚ)
    (pixels : List Nat) : List DecodedKeypoint :=
  decodeGo w h descriptorSize lgM pyrHeight pixels.length pixels

/-- Encode a keypoint list into the `L × L` encoder texture and decode it
back. -/
def encodeThenDecode (w h L descriptorSize : Nat) (lgM pyrHeight : ℚ)
    (kps : List KeypointInput) : List DecodedKeypoint :=
  decodeKeypoints w h descriptorSize lgM pyrHeight (encodeKeypoints L descriptorSize kps)

/-- The keypoint `decodeKeypoints` reconstructs from one encoded record
(what a perfect decode of `encodeRecord kp` yields). -/
def decodedOf (lgM pyrHeight : ℚ) (kp : KeypointInput) : DecodedKeypoint :=
  { x := kp.x
    y := kp.y
    hasScale := decide (quantizeByte kp.alpha < 255)
    lod := if quantizeByte kp.alpha < 255 then
             -lgM + (lgM + pyrHeight) * (quantizeByte kp.alpha) / 255 else 0
    rotationCoeff := if quantizeByte kp.alpha < 255 then
             (2 * (kp.rotationByte : ℚ)) / 255 - 1 else 0
    score := (quantizeByte kp.score : ℚ) / 255
    descriptor := kp.descriptor }

/-- The scale-space position the scale tag `alpha` stands for, in
log2-space: the exact inverse of the alpha map, `lod = -lgM +
(lgM + pyrHeight) * alpha` (the keypoint's scale is `2 ^ lod`).  Decoded
keypoints should reproduce it up to the quantization of `alpha` into a
byte. -/
def inputLod (lgM pyrHeight alpha : ℚ) : ℚ :=
  -lgM + (lgM + pyrHeight) * alpha

/-! ## Pyramid scale encoding (tests/pipeline.js, setScale / scale)

`setScale` computes `alpha(x) = (lgM - log2 x) / (lgM + H)` with
`lgM = log2(PYRAMID_MAX_SCALE)` and `H = PYRAMID_MAX_LEVELS`, after
clamping the requested scale into
`[2^-PYRAMID_MAX_LEVELS + 1e-5, PYRAMID_MAX_SCALE]`. -/

/-- `PYRAMID_MAX_SCALE` (tests/pipeline.js globals): the scale ceiling
`M`. -/
def PYRAMID_MAX_SCALE : ℝ := 2

/-- `PYRAMID_MAX_LEVELS` (tests/pipeline.js globals): the pyramid depth
`H`. -/
def PYRAMID_MAX_LEVELS : ℝ := 4

/-- `lgM = Math.log2(PYRAMID_MAX_SCALE)`. -/
noncomputable def pyramidLgM : ℝ := Real.logb 2 PYRAMID_MAX_SCALE

/-- The scale-to-alpha map of `setScale`:
`alpha(x) = (lgM - log2 x) / (lgM + PYRAMID_MAX_LEVELS)`. -/
noncomputable def scaleAlpha (x : ℝ) : ℝ :=
  (pyramidLgM - Real.logb 2 x) / (pyramidLgM + PYRAMID_MAX_LEVELS)

/-- The clamp `setScale` applies before encoding:
`x = max(pyramidMinScale, min(scale, PYRAMID_MAX_SCALE))` with
`pyramidMinScale = 2^-PYRAMID_MAX_LEVELS + 1e-5`. -/
noncomputable def setScaleClamp (scale : ℝ) : ℝ :=
  max ((2 : ℝ) ^ (-4 : ℤ) + 1e-5) (min scale PYRAMID_MAX_SCALE)

/-- A concrete image used to instantiate theorems with hypotheses on
concrete inputs. -/
def testImage : Image := fun y x c => ((y * 100 + x * 10 + c.val : ℕ) : ℚ)

/-- A concrete keypoint whose scale tag sits at the very bottom of the
pyramid: its alpha quantizes to the byte 255. -/
def badScaleKeypoint : KeypointInput :=
  { x := 3, y := 4, score := 0, alpha := 1023 / 1024, rotationByte := 0, descriptor := [] }

/-- A concrete ordinary keypoint. -/
def sampleKeypoint : KeypointInput :=
  { x := 1, y := 2, score := 1 / 2, alpha := 1 / 5, rotationByte := 7, descriptor := [] }

/-!
# Theorems
-/

theorem chainApply_eq_foldl {α β : Type} (fns : List (Stage α β)) (image : α) (args : β) :
    chainApply fns image args = fns.foldl (fun img fi => fi img args) image := by
  induction fns generalizing image with
  | nil => rfl
  | cons f fs ih => simp only [chainApply, List.foldl]; exact ih _

/-- C3: an operation declared with `compose` over stages f1..fn (n ≥ 2)
applies the stages left to right — stage i's output is stage i+1's first
argument and the extra call arguments go unmodified to every stage — and
the special-cased arities 2, 3 and 4 agree with the generic left-to-right
reduce used for larger arities. -/
theorem compose_chains_stages {α β : Type} (fns : List (Stage α β)) (image : α) (args : β)
    (h : 2 ≤ fns.length) :
    composeRun fns image args = chainApply fns image args := by
  rcases fns with _ | ⟨f0, _ | ⟨f1, _ | ⟨f2, _ | ⟨f3, rest⟩⟩⟩⟩
  · simp at h
  · simp at h
  · rfl
  · rfl
  · rcases rest with _ | ⟨f4, rest⟩
    · rfl
    · rw [chainApply_eq_foldl]; rfl

theorem compose_chains_stages_witness :
    composeRun [fun (i a : ℕ) => i + a, fun (i a : ℕ) => i * a] 3 5 =
      chainApply [fun (i a : ℕ) => i + a, fun (i a : ℕ) => i * a] 3 5 :=
  compose_chains_stages _ 3 5 (by decide)

/-- C4: a kernel declared with `declare` is instantiated at most once —
the first access of the property spawns it (bumping the `_spawnKernel`
count by exactly one) and caches it, and every access of a cached slot
returns the identical kernel with the state unchanged (so no further
construction ever happens). -/
theorem declare_memoizes (s : KernelSlot) (h : s.cache = none) :
    (getKernel s).2.spawnCount = s.spawnCount + 1 ∧
    (getKernel s).2.cache = some (getKernel s).1 ∧
    getKernel (getKernel s).2 = ((getKernel s).1, (getKernel s).2) ∧
    (∀ t k, t.cache = some k → getKernel t = (k, t)) := by
  refine ⟨?_, ?_, ?_, ?_⟩
  · simp [getKernel, spawnKernel, h]
  · simp [getKernel, spawnKernel, h]
  · simp [getKernel, spawnKernel, h]
  · intro t k ht
    simp [getKernel, ht]

theorem declare_memoizes_witness :
    (getKernel ⟨none, 0⟩).2.spawnCount = 0 + 1 ∧
    (getKernel ⟨none, 0⟩).2.cache = some (getKernel ⟨none, 0⟩).1 ∧
    getKernel (getKernel ⟨none, 0⟩).2 = ((getKernel ⟨none, 0⟩).1, (getKernel ⟨none, 0⟩).2) :=
  ⟨(declare_memoizes ⟨none, 0⟩ rfl).1, (declare_memoizes ⟨none, 0⟩ rfl).2.1,
   (declare_memoizes ⟨none, 0⟩ rfl).2.2.1⟩

/-- C5: each convolution generator (`conv2D`, `conv1D` on either axis,
`texConv1D` on either axis) emits a shader that writes, at every output
pixel, an alpha channel equal to the alpha of the input pixel at the same
coordinate: only r/g/b are recomputed, the scale tag in alpha passes
through untouched. -/
theorem conv_preserves_alpha (kernel : List ℚ) (nc : ℚ) (image : Image)
    (w h tx ty : Nat) (axis : Axis) (texKernel : Image) (kSize : Nat)
    (scale offset : ℚ) :
    conv2DRun kernel nc image w h tx ty 3 = image ty tx 3 ∧
    conv1DRun axis kernel nc image w h tx ty 3 = image ty tx 3 ∧
    texConv1DRun axis image texKernel kSize scale offset w h tx ty 3 = image ty tx 3 :=
  ⟨rfl, rfl, rfl⟩

/-- C6: at every output coordinate `(x, y)` of upsample2, an even `x + y`
reproduces the input pixel at `(x/2, y/2)` (integer division) while an
odd `x + y` zeroes r/g/b but keeps the alpha of the input pixel at
`(x/2, y/2)`; the scale tag in alpha is preserved at every output
pixel. -/
theorem upsample2_spec (image : Image) (x y : Nat) :
    ((x + y) % 2 = 0 → upsample2Run image x y = image (y / 2) (x / 2)) ∧
    ((x + y) % 2 = 1 →
      upsample2Run image x y 0 = 0 ∧ upsample2Run image x y 1 = 0 ∧
      upsample2Run image x y 2 = 0 ∧
      upsample2Run image x y 3 = image (y / 2) (x / 2) 3) ∧
    upsample2Run image x y 3 = image (y / 2) (x / 2) 3 := by
  refine ⟨fun hpar => ?_, fun hpar => ?_, ?_⟩
  · simp [upsample2Run, hpar]
  · rw [upsample2Run, if_neg (by omega)]
    exact ⟨rfl, rfl, rfl, rfl⟩
  · by_cases hpar : (x + y) % 2 = 0
    · simp [upsample2Run, hpar]
    · rw [upsample2Run, if_neg hpar]
      exact if_pos rfl

theorem upsample2_spec_witness :
    upsample2Run testImage 0 0 = testImage 0 0 ∧
    upsample2Run testImage 1 0 0 = 0 ∧
    upsample2Run testImage 1 0 3 = testImage 0 0 3 :=
  ⟨(upsample2_spec testImage 0 0).1 (by decide),
   ((upsample2_spec testImage 1 0).2.1 (by decide)).1,
   ((upsample2_spec testImage 1 0).2.1 (by decide)).2.2.2⟩

/-- C8: the `expected` getter of `FeatureDetectionAlgorithm` is broken by
an inverted null check — after automatic sensitivity has been enabled by
the setter it returns `undefined` instead of the configured
`{number, tolerance}` object, and with automatic sensitivity disabled it
dereferences `null` and throws a `TypeError` instead of returning
`undefined`. -/
theorem expected_getter_bug :
    (∀ (init : AutoSensitivity) (auto : Option AutoSensitivity) (q : ℚ),
        getExpected (setExpected init auto (some (ExpectedArg.num q))) = Except.ok none) ∧
    getExpected none = Except.error "TypeError: cannot read properties of null" := by
  refine ⟨fun init auto q => ?_, rfl⟩
  cases auto <;> rfl

/-- C9: the slack multiplier in `FeatureDetector._extractKeypoints` is
`Math.max(1, Math.min(ratio), 2) = max(ratio, 2)` — never the ratio
clamped into [1, 2]: with previous count 1 and current count 3 it is 3
(the claim says 2), with equal positive counts it is 2 (the claim says
1).  Only the first-frame case (previous count 0, slack 1) matches the
claim. -/
theorem extract_keypoints_slack_bug :
    extractKeypointsSlack 1 3 = 3 ∧ 2 < extractKeypointsSlack 1 3 ∧
    extractKeypointsSlack 10 10 = 2 ∧
    claimedSlack 1 3 = 2 ∧ claimedSlack 10 10 = 1 ∧
    extractKeypointsSlack 0 7 = 1 := by
  norm_num [extractKeypointsSlack, claimedSlack]

/-- C7: convolution construction fails fast — `conv2D` produces an error
(and no convolution function) exactly when the kernel's element count is
not the square of an odd positive integer, and `conv1D` produces an
error exactly when the kernel's length is even or below 1. -/
theorem conv_validation (kernel : List ℚ) (nc : ℚ) (axis : Axis) :
    ((∃ e, conv2D kernel nc = Except.error e) ↔
      ¬∃ m, m % 2 = 1 ∧ kernel.length = m * m) ∧
    ((∃ e, conv1D axis kernel nc = Except.error e) ↔
      (kernel.length % 2 = 0 ∨ kernel.length < 1)) := by
  constructor
  · unfold conv2D
    by_cases h1 : Nat.sqrt kernel.length < 1 || Nat.sqrt kernel.length % 2 == 0
    · simp only [h1, if_true, reduceCtorEq]
      simp only [Except.error.injEq, exists_eq', true_iff]
      rintro ⟨m, hm, hlen⟩
      have hs : Nat.sqrt kernel.length = m := by rw [hlen, Nat.sqrt_eq]
      rw [hs] at h1
      simp only [Bool.or_eq_true, decide_eq_true_eq, beq_iff_eq] at h1
      omega
    · simp only [h1, if_false, Bool.false_eq_true]
      by_cases h2 : Nat.sqrt kernel.length * Nat.sqrt kernel.length != kernel.length
      · simp only [h2, if_true, reduceCtorEq]
        simp only [Except.error.injEq, exists_eq', true_iff]
        rintro ⟨m, hm, hlen⟩
        have hs : Nat.sqrt kernel.length = m := by rw [hlen, Nat.sqrt_eq]
        rw [hs, ← hlen] at h2
        simp at h2
      · simp only [h2, if_false, Bool.false_eq_true, reduceCtorEq, exists_false,
          false_iff, not_not]
        simp only [Bool.or_eq_true, decide_eq_true_eq, beq_iff_eq, not_or] at h1
        simp only [bne_iff_ne, ne_eq, not_not] at h2
        exact ⟨Nat.sqrt kernel.length, by omega, h2.symm⟩
  · unfold conv1D
    by_cases h1 : kernel.length < 1 || kernel.length % 2 == 0
    · simp only [h1, if_true, reduceCtorEq]
      simp only [Except.error.injEq, exists_eq', true_iff]
      simp only [Bool.or_eq_true, decide_eq_true_eq, beq_iff_eq] at h1
      omega
    · simp only [h1, if_false, Bool.false_eq_true, reduceCtorEq, exists_false, false_iff]
      simp only [Bool.or_eq_true, decide_eq_true_eq, beq_iff_eq, not_or] at h1
      omega

/-- C10: every neighborhood fetch emitted by the convolution generators
goes through the clamp `min(max(v, 0), dim - 1)`, which lands in
`[0, dim-1]`, is the identity on in-bounds coordinates and returns the
nearest edge texel otherwise; consequently, for thread coordinates inside
the output, the generated shaders never read the image outside
`[0, w-1] × [0, h-1]` — two images agreeing on that region convolve
identically. -/
theorem conv_sampling_clamped (w h : Nat) (hw : 1 ≤ w) (hh : 1 ≤ h) :
    (∀ v : ℤ, clampCoord v w < w) ∧
    (∀ v : ℤ, 0 ≤ v → v < (w : ℤ) → clampCoord v w = v.toNat) ∧
    (∀ v : ℤ, v < 0 → clampCoord v w = 0) ∧
    (∀ v : ℤ, (w : ℤ) ≤ v → clampCoord v w = w - 1) ∧
    (∀ (image image' : Image) (kernel : List ℚ) (nc : ℚ) (tx ty : Nat)
       (axis : Axis) (texKernel : Image) (kSize : Nat) (scale offset : ℚ),
       tx < w → ty < h →
       (∀ yy xx, yy < h → xx < w → image yy xx = image' yy xx) →
       conv2DRun kernel nc image w h tx ty = conv2DRun kernel nc image' w h tx ty ∧
       conv1DRun axis kernel nc image w h tx ty = conv1DRun axis kernel nc image' w h tx ty ∧
       texConv1DRun axis image texKernel kSize scale offset w h tx ty =
         texConv1DRun axis image' texKernel kSize scale offset w h tx ty) := by
  have hcw : ∀ v : ℤ, clampCoord v w < w := by
    intro v; simp only [clampCoord]; omega
  have hch : ∀ v : ℤ, clampCoord v h < h := by
    intro v; simp only [clampCoord]; omega
  refine ⟨hcw, ?_, ?_, ?_, ?_⟩
  · intro v h0 hv; simp only [clampCoord]; omega
  · intro v hv; simp only [clampCoord]; omega
  · intro v hv; simp only [clampCoord]; omega
  intro image image' kernel nc tx ty axis texKernel kSize scale offset htx hty hagree
  have htap : ∀ (k : ℚ) (yc xc : Nat), yc < h → xc < w → ∀ acc,
      convTap image k yc xc acc = convTap image' k yc xc acc := by
    intro k yc xc hyc hxc acc
    simp only [convTap]
    rw [hagree yc xc hyc hxc]
  have halpha : image ty tx = image' ty tx := hagree ty tx hty htx
  refine ⟨?_, ?_, ?_⟩
  · simp only [conv2DRun]
    rw [List.foldl_ext _ _ (0, 0, 0)
      (fun acc ij _ => htap _ _ _ (hch _) (hcw _) acc), halpha]
  · simp only [conv1DRun]
    cases axis
    · rw [List.foldl_ext _ _ (0, 0, 0)
        (fun acc i _ => htap _ _ _ hty (hcw _) acc), halpha]
    · rw [List.foldl_ext _ _ (0, 0, 0)
        (fun acc i _ => htap _ _ _ (hch _) htx acc), halpha]
  · have htex : ∀ (yc xc : Nat), yc < h → xc < w → ∀ (i : ℤ) acc,
        texConvTap image texKernel scale offset (kSize / 2) yc xc i acc =
        texConvTap image' texKernel scale offset (kSize / 2) yc xc i acc := by
      intro yc xc hyc hxc i acc
      simp only [texConvTap]
      rw [hagree yc xc hyc hxc]
    simp only [texConv1DRun]
    cases axis
    · rw [List.foldl_ext _ _ (0, 0, 0)
        (fun acc i _ => htex _ _ hty (hcw _) i acc), halpha]
    · rw [List.foldl_ext _ _ (0, 0, 0)
        (fun acc i _ => htex _ _ (hch _) htx i acc), halpha]

theorem conv_sampling_clamped_witness :
    clampCoord (-3) 2 = 0 ∧ clampCoord 5 2 = 2 - 1 ∧
    clampCoord 1 2 = Int.toNat 1 ∧ clampCoord 7 2 < 2 :=
  ⟨(conv_sampling_clamped 2 2 (by decide) (by decide)).2.2.1 (-3) (by decide),
   (conv_sampling_clamped 2 2 (by decide) (by decide)).2.2.2.1 5 (by decide),
   (conv_sampling_clamped 2 2 (by decide) (by decide)).2.1 1 (by decide) (by decide),
   (conv_sampling_clamped 2 2 (by decide) (by decide)).1 7⟩

/-- C2: for every valid linear scale `x` (inside the interval `setScale`
clamps to), `alpha(x) = (log2 M − log2 x) / (log2 M + H)` lies in
`[0, 1)`; scaling by a factor `s` shifts alpha by
`−log2(s) / (log2 M + H)`, so composing scale factors is addition of
their alpha contributions; and the alpha of any clamped scale request is
in `[0, 1)`. -/
theorem scale_alpha_spec (x s : ℝ)
    (hx0 : (2 : ℝ) ^ (-4 : ℤ) < x) (hx1 : x ≤ PYRAMID_MAX_SCALE) (hs : 0 < s) :
    0 ≤ scaleAlpha x ∧ scaleAlpha x < 1 ∧
    scaleAlpha (s * x) =
      scaleAlpha x - Real.logb 2 s / (pyramidLgM + PYRAMID_MAX_LEVELS) ∧
    (∀ r : ℝ, 0 ≤ scaleAlpha (setScaleClamp r) ∧ scaleAlpha (setScaleClamp r) < 1) := by
  have hlgM : pyramidLgM = 1 := by
    simp only [pyramidLgM, PYRAMID_MAX_SCALE]
    exact Real.logb_self_eq_one (by norm_num)
  have h24 : Real.logb 2 ((2 : ℝ) ^ (-4 : ℤ)) = -4 := by
    rw [← Real.rpow_intCast 2 (-4), Real.logb_rpow (by norm_num) (by norm_num)]
    norm_num
  have hbounds : ∀ y : ℝ, (2 : ℝ) ^ (-4 : ℤ) < y → y ≤ 2 →
      0 ≤ scaleAlpha y ∧ scaleAlpha y < 1 := by
    intro y hy0 hy1
    have hypos : 0 < y := lt_trans (by positivity) hy0
    have hub : Real.logb 2 y ≤ 1 := by
      have := Real.logb_le_logb_of_le (by norm_num : (1 : ℝ) < 2) hypos hy1
      rwa [Real.logb_self_eq_one (by norm_num)] at this
    have hlb : (-4 : ℝ) < Real.logb 2 y := by
      have h1 := Real.logb_lt_logb (by norm_num : (1 : ℝ) < 2) (by positivity) hy0
      rwa [h24] at h1
    constructor
    · simp only [scaleAlpha, PYRAMID_MAX_LEVELS, hlgM]
      apply div_nonneg (by linarith) (by norm_num)
    · simp only [scaleAlpha, PYRAMID_MAX_LEVELS, hlgM]
      rw [div_lt_one (by norm_num)]
      linarith
  have hxpos : 0 < x := lt_trans (by positivity) hx0
  have hM2 : PYRAMID_MAX_SCALE = (2 : ℝ) := rfl
  refine ⟨(hbounds x hx0 (hM2 ▸ hx1)).1, (hbounds x hx0 (hM2 ▸ hx1)).2, ?_, ?_⟩
  · simp only [scaleAlpha]
    rw [Real.logb_mul hs.ne' hxpos.ne']
    ring
  · intro r
    apply hbounds
    · calc (2 : ℝ) ^ (-4 : ℤ) < (2 : ℝ) ^ (-4 : ℤ) + 1e-5 := by norm_num
        _ ≤ setScaleClamp r := le_max_left _ _
    · simp only [setScaleClamp, PYRAMID_MAX_SCALE]
      apply max_le (by norm_num) (min_le_right _ _)

theorem scale_alpha_spec_witness :
    0 ≤ scaleAlpha 1 ∧ scaleAlpha 1 < 1 ∧
    scaleAlpha (2 * 1) =
      scaleAlpha 1 - Real.logb 2 2 / (pyramidLgM + PYRAMID_MAX_LEVELS) ∧
    0 ≤ scaleAlpha (setScaleClamp 5) ∧ scaleAlpha (setScaleClamp 5) < 1 :=
  ⟨(scale_alpha_spec 1 2 (by norm_num) (by norm_num [PYRAMID_MAX_SCALE]) (by norm_num)).1,
   (scale_alpha_spec 1 2 (by norm_num) (by norm_num [PYRAMID_MAX_SCALE]) (by norm_num)).2.1,
   (scale_alpha_spec 1 2 (by norm_num) (by norm_num [PYRAMID_MAX_SCALE]) (by norm_num)).2.2.1,
   ((scale_alpha_spec 1 2 (by norm_num) (by norm_num [PYRAMID_MAX_SCALE]) (by norm_num)).2.2.2 5).1,
   ((scale_alpha_spec 1 2 (by norm_num) (by norm_num [PYRAMID_MAX_SCALE]) (by norm_num)).2.2.2 5).2⟩

theorem quantizeByte_le (q : ℚ) : quantizeByte q ≤ 255 :=
  min_le_left _ _

theorem quantizeByte_close (q : ℚ) (h0 : 0 ≤ q) (h1 : q ≤ 1) :
    |((quantizeByte q : ℚ)) / 255 - q| ≤ 1 / 255 := by
  have hm0 : (0 : ℤ) ≤ ⌊255 * q + 1 / 2⌋ := by
    apply Int.floor_nonneg.mpr
    linarith
  have hm1 : ⌊255 * q + 1 / 2⌋ ≤ 255 := by
    have h2 : ⌊255 * q + 1 / 2⌋ < 256 := by
      rw [Int.floor_lt]
      push_cast
      linarith
    omega
  have hq : quantizeByte q = (⌊255 * q + 1 / 2⌋).toNat := by
    unfold quantizeByte
    omega
  have hcast : ((quantizeByte q : ℚ)) = ((⌊255 * q + 1 / 2⌋ : ℤ) : ℚ) := by
    rw [hq]
    exact_mod_cast Int.toNat_of_nonneg hm0
  have hfl : ((⌊255 * q + 1 / 2⌋ : ℤ) : ℚ) ≤ 255 * q + 1 / 2 := Int.floor_le _
  have hfu : 255 * q + 1 / 2 < ((⌊255 * q + 1 / 2⌋ : ℤ) : ℚ) + 1 := Int.lt_floor_add_one _
  rw [hcast, abs_le]
  constructor <;> [linarith; linarith]

theorem decodeGo_cons_record (w h descriptorSize : Nat) (lgM pyrHeight : ℚ)
    (fuel : Nat) (kp : KeypointInput) (rest : List Nat)
    (hx : kp.x < w) (hy : kp.y < h)
    (hdlen : kp.descriptor.length = descriptorSize) :
    decodeGo w h descriptorSize lgM pyrHeight (fuel + 1) (encodeRecord kp ++ rest) =
      decodedOf lgM pyrHeight kp ::
        decodeGo w h descriptorSize lgM pyrHeight fuel rest := by
  have hsplit : encodeRecord kp ++ rest =
      kp.x % 256 :: kp.x / 256 :: kp.y % 256 :: kp.y / 256 ::
      quantizeByte kp.alpha :: kp.rotationByte :: quantizeByte kp.score :: 0 ::
      (kp.descriptor ++ rest) := by
    simp [encodeRecord]
  rw [hsplit]
  rw [decodeGo]
  simp only [List.getD_cons_zero, List.getD_cons_succ]
  rw [if_neg (by omega)]
  have hdrop8 : (kp.x % 256 :: kp.x / 256 :: kp.y % 256 :: kp.y / 256 ::
      quantizeByte kp.alpha :: kp.rotationByte :: quantizeByte kp.score :: 0 ::
      (kp.descriptor ++ rest)).drop 8 = kp.descriptor ++ rest := rfl
  have hdropRec : (kp.x % 256 :: kp.x / 256 :: kp.y % 256 :: kp.y / 256 ::
      quantizeByte kp.alpha :: kp.rotationByte :: quantizeByte kp.score :: 0 ::
      (kp.descriptor ++ rest)).drop (8 + descriptorSize) = rest := by
    rw [← List.drop_drop, hdrop8, List.drop_left' hdlen]
  rw [hdrop8, hdropRec, List.take_left' hdlen]
  have hxval : 256 * (kp.x / 256) + kp.x % 256 = kp.x := by omega
  have hyval : 256 * (kp.y / 256) + kp.y % 256 = kp.y := by omega
  rw [hxval, hyval]
  rfl

theorem decodeGo_replicate (w h descriptorSize : Nat) (lgM pyrHeight : ℚ)
    (fuel n : Nat) (hw : w ≤ 65535) (hn : n = 0 ∨ 2 ≤ n) :
    decodeGo w h descriptorSize lgM pyrHeight fuel (List.replicate n 255) = [] := by
  rcases hn with rfl | hn
  · cases fuel <;> rfl
  · obtain ⟨m, rfl⟩ : ∃ m, n = m + 2 := ⟨n - 2, by omega⟩
    rw [List.replicate_succ, List.replicate_succ]
    cases fuel with
    | zero => rfl
    | succ f =>
      rw [decodeGo]
      simp only [List.getD_cons_zero, List.getD_cons_succ]
      rw [if_pos (by omega)]

theorem decodeGo_flatMap (w h descriptorSize : Nat) (lgM pyrHeight : ℚ)
    (kps : List KeypointInput) (tail : List Nat)
    (hkps : ∀ kp ∈ kps, kp.x < w ∧ kp.y < h ∧ kp.descriptor.length = descriptorSize) :
    ∀ fuel, kps.length ≤ fuel →
      decodeGo w h descriptorSize lgM pyrHeight fuel (kps.flatMap encodeRecord ++ tail) =
        kps.map (decodedOf lgM pyrHeight) ++
          decodeGo w h descriptorSize lgM pyrHeight (fuel - kps.length) tail := by
  induction kps with
  | nil => intro fuel _; simp
  | cons kp rest ih =>
    intro fuel hfuel
    have hlen : rest.length + 1 ≤ fuel := by simpa using hfuel
    obtain ⟨f, rfl⟩ : ∃ f, fuel = f + 1 := ⟨fuel - 1, by omega⟩
    have hkp := hkps kp (by simp)
    rw [List.flatMap_cons, List.append_assoc,
      decodeGo_cons_record w h descriptorSize lgM pyrHeight f kp _
        hkp.1 hkp.2.1 hkp.2.2,
      ih (fun k hk => hkps k (by simp [hk])) f (by omega)]
    simp [Nat.succ_sub_succ]

theorem flatMap_encodeRecord_length (descriptorSize : Nat) (kps : List KeypointInput)
    (hkps : ∀ kp ∈ kps, kp.descriptor.length = descriptorSize) :
    (kps.flatMap encodeRecord).length = kps.length * (8 + descriptorSize) := by
  induction kps with
  | nil => simp
  | cons kp rest ih =>
    have hrec : (encodeRecord kp).length = 8 + descriptorSize := by
      simp [encodeRecord, hkps kp (by simp)]
      omega
    rw [List.flatMap_cons, List.length_append, hrec,
      ih (fun k hk => hkps k (by simp [hk]))]
    simp [List.length_cons]
    ring

/-- C1 (amended): encoding `K ≤ capacity(L)` keypoints into the encoder
texture and decoding yields exactly `K` items — decoding is stopped by
the first record whose position decodes outside image bounds, here the
all-white filler after the `K` records — and each item matches its input:
position and descriptor bytes exactly, score within ±1/255, and, for
every keypoint whose quantized scale byte is below 255 (byte 255 is the
codec's reserved no-scale sentinel, decoded as scale 1), lod within the
pyramid's discretization step `(log2 M + H)/255`. -/
theorem codec_roundtrip (w h L descriptorSize : Nat) (lgM pyrHeight : ℚ)
    (kps : List KeypointInput)
    (hds : descriptorSize % 4 = 0)
    (hw : w ≤ 65535) (_hh : h ≤ 65535)
    (hcap : kps.length * (8 + descriptorSize) ≤ 4 * L * L)
    (hlg : 0 ≤ lgM + pyrHeight)
    (hkps : ∀ kp ∈ kps, kp.x < w ∧ kp.y < h ∧
      0 ≤ kp.score ∧ kp.score ≤ 1 ∧ 0 ≤ kp.alpha ∧ kp.alpha < 1 ∧
      kp.descriptor.length = descriptorSize) :
    (encodeThenDecode w h L descriptorSize lgM pyrHeight kps).length = kps.length ∧
    encodeThenDecode w h L descriptorSize lgM pyrHeight kps =
      kps.map (decodedOf lgM pyrHeight) ∧
    (∀ kp ∈ kps,
      (decodedOf lgM pyrHeight kp).x = kp.x ∧
      (decodedOf lgM pyrHeight kp).y = kp.y ∧
      |(decodedOf lgM pyrHeight kp).score - kp.score| ≤ 1 / 255 ∧
      (decodedOf lgM pyrHeight kp).descriptor = kp.descriptor ∧
      (quantizeByte kp.alpha < 255 →
        |(decodedOf lgM pyrHeight kp).lod - inputLod lgM pyrHeight kp.alpha|
          ≤ (lgM + pyrHeight) / 255)) := by
  have hmain : encodeThenDecode w h L descriptorSize lgM pyrHeight kps =
      kps.map (decodedOf lgM pyrHeight) := by
    unfold encodeThenDecode decodeKeypoints encodeKeypoints
    have hflen : (kps.flatMap encodeRecord).length = kps.length * (8 + descriptorSize) :=
      flatMap_encodeRecord_length descriptorSize kps
        (fun k hk => (hkps k hk).2.2.2.2.2.2)
    have hfuel : kps.length ≤ (kps.flatMap encodeRecord ++
        List.replicate (4 * L * L - kps.length * (8 + descriptorSize)) 255).length := by
      rw [List.length_append, hflen]
      have : kps.length * 1 ≤ kps.length * (8 + descriptorSize) :=
        Nat.mul_le_mul_left _ (by omega)
      omega
    rw [decodeGo_flatMap w h descriptorSize lgM pyrHeight kps _
      (fun k hk => ⟨(hkps k hk).1, (hkps k hk).2.1, (hkps k hk).2.2.2.2.2.2⟩)
      _ hfuel]
    have hpad : 4 * L * L - kps.length * (8 + descriptorSize) = 0 ∨
        2 ≤ 4 * L * L - kps.length * (8 + descriptorSize) := by
      obtain ⟨t, rfl⟩ : ∃ t, descriptorSize = 4 * t := ⟨descriptorSize / 4, by omega⟩
      have h1 : kps.length * (8 + 4 * t) = 4 * (kps.length * (2 + t)) := by ring
      have h2 : 4 * L * L = 4 * (L * L) := by ring
      rw [h1, h2]
      rw [h1, h2] at hcap
      omega
    rw [decodeGo_replicate w h descriptorSize lgM pyrHeight _ _ hw hpad,
      List.append_nil]
  refine ⟨by rw [hmain]; simp, hmain, ?_⟩
  intro kp hkp
  obtain ⟨hxw, hyh, hs0, hs1, ha0, ha1, hdl⟩ := hkps kp hkp
  refine ⟨rfl, rfl, ?_, rfl, ?_⟩
  · exact quantizeByte_close kp.score hs0 hs1
  · intro hq
    have hqc := quantizeByte_close kp.alpha ha0 (le_of_lt ha1)
    have hlod : (decodedOf lgM pyrHeight kp).lod =
        -lgM + (lgM + pyrHeight) * (quantizeByte kp.alpha) / 255 := by
      simp only [decodedOf]
      rw [if_pos hq]
    rw [hlod]
    have hdiff : -lgM + (lgM + pyrHeight) * (quantizeByte kp.alpha) / 255 -
        inputLod lgM pyrHeight kp.alpha =
        (lgM + pyrHeight) * ((quantizeByte kp.alpha : ℚ) / 255 - kp.alpha) := by
      unfold inputLod
      ring
    rw [hdiff, abs_mul, abs_of_nonneg hlg]
    calc (lgM + pyrHeight) * |(quantizeByte kp.alpha : ℚ) / 255 - kp.alpha|
        ≤ (lgM + pyrHeight) * (1 / 255) := by
          exact mul_le_mul_of_nonneg_left hqc hlg
      _ = (lgM + pyrHeight) / 255 := by ring

theorem codec_roundtrip_counterexample :
    (encodeThenDecode 100 100 2 0 1 4 [badScaleKeypoint]).length = 1 ∧
    ¬ |((encodeThenDecode 100 100 2 0 1 4 [badScaleKeypoint]).getD 0 default).lod
        - inputLod 1 4 badScaleKeypoint.alpha| ≤ (1 + 4) / 255 := by
  have hq : quantizeByte badScaleKeypoint.alpha = 255 := by
    have hfl : ⌊(255 : ℚ) * (1023 / 1024) + 1 / 2⌋ = 255 := by
      rw [Int.floor_eq_iff]
      constructor <;> norm_num
    unfold quantizeByte badScaleKeypoint
    rw [hfl]
    rfl
  have hd : ∀ kp ∈ [badScaleKeypoint],
      kp.x < 100 ∧ kp.y < 100 ∧ kp.descriptor.length = 0 := by
    intro kp hk
    simp only [List.mem_singleton] at hk
    subst hk
    exact ⟨by norm_num [badScaleKeypoint], by norm_num [badScaleKeypoint], rfl⟩
  have hmain : encodeThenDecode 100 100 2 0 1 4 [badScaleKeypoint] =
      [decodedOf 1 4 badScaleKeypoint] := by
    unfold encodeThenDecode decodeKeypoints encodeKeypoints
    rw [decodeGo_flatMap 100 100 0 1 4 _ _ hd _ (by simp [encodeRecord])]
    rw [decodeGo_replicate _ _ _ _ _ _ _ (by norm_num) (by simp)]
    simp
  rw [hmain]
  refine ⟨rfl, ?_⟩
  simp only [List.getD_cons_zero, decodedOf, hq, lt_irrefl, if_false, inputLod]
  norm_num [badScaleKeypoint]
  rw [abs_of_nonneg (by norm_num : (0 : ℚ) ≤ 4091 / 1024)]
  norm_num

theorem codec_roundtrip_witness :
    (encodeThenDecode 10 10 2 0 1 4 [sampleKeypoint]).length = 1 ∧
    encodeThenDecode 10 10 2 0 1 4 [sampleKeypoint] =
      [sampleKeypoint].map (decodedOf 1 4) :=
  ⟨(codec_roundtrip 10 10 2 0 1 4 _ (by decide) (by decide) (by decide)
      (by simp) (by norm_num)
      (by intro kp hk
          simp only [List.mem_singleton] at hk
          subst hk
          refine ⟨by norm_num [sampleKeypoint], by norm_num [sampleKeypoint],
            by norm_num [sampleKeypoint], by norm_num [sampleKeypoint],
            by norm_num [sampleKeypoint], by norm_num [sampleKeypoint], rfl⟩)).1,
   (codec_roundtrip 10 10 2 0 1 4 _ (by decide) (by decide) (by decide)
      (by simp) (by norm_num)
      (by intro kp hk
          simp only [List.mem_singleton] at hk
          subst hk
          refine ⟨by norm_num [sampleKeypoint], by norm_num [sampleKeypoint],
            by norm_num [sampleKeypoint], by norm_num [sampleKeypoint],
            by norm_num [sampleKeypoint], by norm_num [sampleKeypoint], rfl⟩)).2.1⟩

end SpeedyVision
